import Mathlib

/-!
Verification of the Disneyland-review analytics pipeline
(src/data_cleaning.py, src/PCA_analysis.py, src/keyword_impact_summary.py,
src/Descriptive_Analysis.py) against its natural-language specification.

Modelling conventions:
* Python strings are Lean strings (reasoned about through their character
  lists); the pipeline's data is ASCII after cleaning, and `Char.toLower`
  style case mapping is modelled on the ASCII range exactly as Python's
  `str.lower` behaves there.
* Python/numpy floats are modelled as exact rationals for the cohort
  statistics and as reals for the TF-IDF weights; `round(x, k)` is modelled
  as exact decimal rounding with ties to even (Python's documented rule).
* pandas missing values (`NaN`, the explicit missing marker of the spec)
  are modelled as `Option.none`.
-/

namespace Disney

/-- ASCII whitespace matched by Python's regex class `\s` and stripped by
`str.strip` (space, tab, newline, carriage return, form feed, vertical tab). -/
def pySpace (c : Char) : Bool :=
  c = ' ' || c = '\t' || c = '\n' || c = '\x0d' || c = '\x0c' || c = '\x0b'

/-- The ASCII upper/lower case pairs used by `str.lower` on the characters
that survive `clean_text`'s character filter. -/
def upperLower : List (Char × Char) :=
  [('A', 'a'), ('B', 'b'), ('C', 'c'), ('D', 'd'), ('E', 'e'), ('F', 'f'),
   ('G', 'g'), ('H', 'h'), ('I', 'i'), ('J', 'j'), ('K', 'k'), ('L', 'l'),
   ('M', 'm'), ('N', 'n'), ('O', 'o'), ('P', 'p'), ('Q', 'q'), ('R', 'r'),
   ('S', 's'), ('T', 't'), ('U', 'u'), ('V', 'v'), ('W', 'w'), ('X', 'x'),
   ('Y', 'y'), ('Z', 'z')]

/-- Python `str.lower`, modelled on the ASCII range. -/
def pyLower (c : Char) : Char :=
  ((upperLower.find? (fun p => p.1 == c)).map Prod.snd).getD c

/-- Characters kept by the substitution `re.sub(r"[^a-zA-Z0-9\s]", "", text)`
at src/data_cleaning.py line 19. -/
def keepChar (c : Char) : Bool :=
  (decide ('a' ≤ c) && decide (c ≤ 'z')) ||
  (decide ('A' ≤ c) && decide (c ≤ 'Z')) ||
  (decide ('0' ≤ c) && decide (c ≤ '9')) ||
  pySpace c

/-- Length of the maximal run of non-whitespace characters at the head of
`l`; the extent a greedy `\S+` consumes. -/
def nonSpRun (l : List Char) : Nat :=
  (l.takeWhile (fun c => !pySpace c)).length

/-- One attempt of the regular expression `http\S+|www\S+|<.*?>`
(src/data_cleaning.py line 18) at the current position: the alternatives are
tried in order, `\S+` is greedy, `.*?` is minimal and `.` does not cross a
newline.  Returns the length of the match, if any. -/
def matchAt (l : List Char) : Option Nat :=
  if l.take 4 = ['h', 't', 't', 'p'] ∧ 0 < nonSpRun (l.drop 4) then
    some (4 + nonSpRun (l.drop 4))
  else if l.take 3 = ['w', 'w', 'w'] ∧ 0 < nonSpRun (l.drop 3) then
    some (3 + nonSpRun (l.drop 3))
  else
    match l with
    | '<' :: rest =>
      match (rest.takeWhile (fun c => c != '\n')).findIdx? (fun c => c == '>') with
      | some k => some (2 + k)
      | none => none
    | _ => none

/-- Every successful match consumes at least one character. -/
theorem matchAt_pos {l : List Char} {k : Nat} (h : matchAt l = some k) : 0 < k := by
  unfold matchAt at h
  split_ifs at h with h1 h2
  · simp only [Option.some.injEq] at h
    omega
  · simp only [Option.some.injEq] at h
    omega
  · split at h
    · split at h
      · simp only [Option.some.injEq] at h
        omega
      · exact absurd h (by simp)
    · exact absurd h (by simp)

/-- Fuelled scan of `re.sub(pattern, "", text)`: at each position the pattern
is tried; on a match the matched characters are deleted and scanning resumes
after them, otherwise one character is emitted.  `fuel` bounds the number of
steps; `fuel = l.length` always suffices. -/
def subAllF : Nat → List Char → List Char
  | 0, l => l
  | _ + 1, [] => []
  | fuel + 1, c :: rest =>
    match matchAt (c :: rest) with
    | some k => subAllF fuel (List.drop k (c :: rest))
    | none => c :: subAllF fuel rest

/-- The substitution `re.sub(r"http\S+|www\S+|<.*?>", "", text)` of
src/data_cleaning.py line 18. -/
def subAll (l : List Char) : List Char :=
  subAllF l.length l

/-- Python `str.strip()`: remove leading and trailing whitespace. -/
def stripBoth (l : List Char) : List Char :=
  ((l.dropWhile pySpace).reverse.dropWhile pySpace).reverse

/-- The body of `clean_text` (src/data_cleaning.py lines 16-20) on character
lists: lowercase, delete URL/HTML matches, delete characters outside
letters/digits/whitespace, strip surrounding whitespace. -/
def cleanList (l : List Char) : List Char :=
  stripBoth ((subAll (l.map pyLower)).filter keepChar)

/-- The function `clean_text` of src/data_cleaning.py lines 16-20. -/
def clean_text (s : String) : String :=
  ⟨cleanList s.data⟩

example : clean_text "Hello, World!" = "hello world" := by decide

example : clean_text "see http://x.com now" = "see  now" := by decide

example : clean_text "htt!px" = "httpx" := by decide

example : clean_text "httpx" = "" := by decide

/-! ### Structural lemmas about the normalizer -/

theorem subAllF_subset : ∀ (fuel : Nat) (l : List Char), subAllF fuel l ⊆ l := by
  intro fuel
  induction fuel with
  | zero => intro l x hx; exact hx
  | succ f ih =>
    intro l
    cases l with
    | nil => intro x hx; simp [subAllF] at hx
    | cons c rest =>
      cases h : matchAt (c :: rest) with
      | some k =>
        simp only [subAllF, h]
        intro x hx
        exact List.mem_of_mem_drop (ih _ hx)
      | none =>
        simp only [subAllF, h]
        intro x hx
        rcases List.mem_cons.mp hx with rfl | hx'
        · exact List.mem_cons_self _ _
        · exact List.mem_cons_of_mem _ (ih _ hx')

theorem subAll_subset (l : List Char) : subAll l ⊆ l :=
  subAllF_subset l.length l

theorem pyLower_idem (c : Char) : pyLower (pyLower c) = pyLower c := by
  have key : ∀ q ∈ upperLower, pyLower q.2 = q.2 := by decide
  unfold pyLower
  cases h : upperLower.find? (fun p => p.1 == c) with
  | none => simp [h]
  | some p =>
    simp only [h, Option.map_some', Option.getD_some]
    have hm : p ∈ upperLower := List.mem_of_find?_eq_some h
    simpa [pyLower] using key p hm

theorem map_eq_self_of_fix {α : Type} {f : α → α} :
    ∀ {l : List α}, (∀ c ∈ l, f c = c) → l.map f = l := by
  intro l
  induction l with
  | nil => intro _; rfl
  | cons a t ih =>
    intro h
    simp only [List.map_cons]
    rw [h a (List.mem_cons_self a t), ih (fun c hc => h c (List.mem_cons_of_mem a hc))]

theorem head?_dropWhile_false {α : Type} (p : α → Bool) (l : List α) {c : α}
    (h : (l.dropWhile p).head? = some c) : p c = false := by
  have hd := List.head?_dropWhile_not p l
  rw [h] at hd
  exact hd

theorem dropWhile_eq_self_of_head {α : Type} (p : α → Bool) (l : List α)
    (h : ∀ c, l.head? = some c → p c = false) : l.dropWhile p = l := by
  cases l with
  | nil => rfl
  | cons a t =>
    rw [List.dropWhile_cons, if_neg]
    simp [h a rfl]

theorem dropWhile_dropWhile {α : Type} (p : α → Bool) (l : List α) :
    (l.dropWhile p).dropWhile p = l.dropWhile p :=
  dropWhile_eq_self_of_head p _ (fun _ hc => head?_dropWhile_false p l hc)

theorem stripBoth_subset (l : List Char) : stripBoth l ⊆ l := by
  intro x hx
  unfold stripBoth at hx
  rw [List.mem_reverse] at hx
  have h1 := (List.dropWhile_suffix pySpace).subset hx
  rw [List.mem_reverse] at h1
  exact (List.dropWhile_suffix pySpace).subset h1

theorem stripBoth_idem (l : List Char) : stripBoth (stripBoth l) = stripBoth l := by
  unfold stripBoth
  set a := l.dropWhile pySpace with ha
  set w := a.reverse.dropWhile pySpace with hw
  have hrev : w.reverse.reverse = w := List.reverse_reverse w
  have step1 : w.reverse.dropWhile pySpace = w.reverse := by
    apply dropWhile_eq_self_of_head
    intro c hc
    rw [List.head?_reverse] at hc
    have hwne : w ≠ [] := by
      intro hnil
      rw [hnil] at hc
      simp at hc
    obtain ⟨u, hu⟩ := List.dropWhile_suffix (l := a.reverse) pySpace
    have hlast : w.getLast? = a.reverse.getLast? := by
      rw [← hu, List.getLast?_append]
      cases hlw : w.getLast? with
      | none => exact absurd (List.getLast?_eq_none_iff.mp hlw) hwne
      | some d => rfl
    rw [hlast, List.getLast?_reverse] at hc
    exact head?_dropWhile_false pySpace l hc
  rw [step1, hrev, dropWhile_dropWhile]

/-! ### The C3 theorems -/

/-- C3 counterexample: `clean_text` is not idempotent.  On the input
`"htt!px"` the first pass only deletes the `!` (producing `"httpx"`), and the
second pass then matches `http\S+` and deletes everything. -/
theorem c3_counterexample : clean_text (clean_text "htt!px") ≠ clean_text "htt!px" := by
  decide

/-- C3 (amended): normalization is idempotent on every input whose normalized
form is left unchanged by the URL/HTML substitution, i.e. whenever deleting
the special characters did not create a fresh `http\S+` or `www\S+` match.
(In general a second normalization can differ, see the counterexample.) -/
theorem c3_normalize_idem (s : String)
    (h : subAll (clean_text s).data = (clean_text s).data) :
    clean_text (clean_text s) = clean_text s := by
  show (⟨cleanList (clean_text s).data⟩ : String) = clean_text s
  have hy : (clean_text s).data = cleanList s.data := rfl
  have hmem : ∀ c ∈ (clean_text s).data,
      c ∈ (subAll (s.data.map pyLower)).filter keepChar := by
    intro c hc
    rw [hy] at hc
    exact stripBoth_subset _ hc
  have hlow : (clean_text s).data.map pyLower = (clean_text s).data := by
    apply map_eq_self_of_fix
    intro c hc
    have h1 := (List.mem_filter.mp (hmem c hc)).1
    have h2 := subAll_subset _ h1
    obtain ⟨a, _, rfl⟩ := List.mem_map.mp h2
    exact pyLower_idem a
  have hfil : (clean_text s).data.filter keepChar = (clean_text s).data := by
    apply List.filter_eq_self.mpr
    intro c hc
    exact (List.mem_filter.mp (hmem c hc)).2
  have hstrip : stripBoth (clean_text s).data = (clean_text s).data := by
    rw [hy]
    exact stripBoth_idem _
  have : cleanList (clean_text s).data = (clean_text s).data := by
    unfold cleanList
    rw [hlow, h, hfil, hstrip]
  rw [this]

/-- Witness for the C3 theorem: on `"abc"` the hypothesis holds and the
conclusion evaluates. -/
theorem c3_witness :
    subAll (clean_text "abc").data = (clean_text "abc").data ∧
      clean_text (clean_text "abc") = clean_text "abc" :=
  ⟨by decide, c3_normalize_idem "abc" (by decide)⟩

/-! ### Data cleaning stage (src/data_cleaning.py lines 6-22) -/

/-- A raw input record as read from DisneylandReviews.csv.  `reviewText` is
`none` when the Review_Text field is missing (a pandas NaN). -/
structure RawRecord where
  reviewText : Option String
  rating : Int
  branch : String
  deriving DecidableEq, Repr

/-- A record of the cleaned table DisneylandReviews_clean.csv produced by
src/data_cleaning.py (the sentiment column is treated by the
SentimentScorer model below). -/
structure CleanRecord where
  raw : String
  clean : String
  rating : Int
  branch : String
  deriving DecidableEq, Repr

/-- Helper for `drop_duplicates`: keep a record only if its Review_Text was
not seen before (pandas keeps the first occurrence, and treats two missing
values as duplicates of each other). -/
def dedupAux : List (Option String) → List RawRecord → List RawRecord
  | _, [] => []
  | seen, r :: rest =>
    if r.reviewText ∈ seen then dedupAux seen rest
    else r :: dedupAux (r.reviewText :: seen) rest

/-- The statement `df.drop_duplicates(subset=["Review_Text"])`
(src/data_cleaning.py line 9). -/
def drop_duplicates (l : List RawRecord) : List RawRecord :=
  dedupAux [] l

/-- The statement `df.dropna(subset=["Review_Text"])`
(src/data_cleaning.py line 10): every record whose raw text is missing is
removed from the data. -/
def dropnaText (l : List RawRecord) : List RawRecord :=
  l.filter (fun r => r.reviewText.isSome)

/-- The cleaned record built for a surviving raw record with present text. -/
def mkCleanRec (r : RawRecord) (t : String) : CleanRecord :=
  ⟨t, clean_text t, r.rating, r.branch⟩

/-- The cleaning stage of src/data_cleaning.py lines 9-22: deduplicate on
Review_Text, drop records with missing Review_Text, then apply `clean_text`
to every remaining record. -/
def data_cleaning (l : List RawRecord) : List CleanRecord :=
  (dropnaText (drop_duplicates l)).map (fun r => mkCleanRec r (r.reviewText.getD ""))

/-- C2 counterexample: a record whose raw text is missing is not normalized
to the empty string and retained, as the claim states; it is removed
entirely by `dropna` (the cleaned corpus is empty). -/
theorem c2_counterexample :
    data_cleaning [⟨none, 5, "Paris"⟩] = [] := by decide

/-- C2 (amended): a record whose raw text is missing is dropped by the
cleaning stage before normalization ever sees it (so no failure occurs, but
the record is not retained either); every record with present raw text —
including one whose text normalizes to the empty string — is retained in the
cleaned data that feeds the rating/sentiment statistics, with `clean_text`
applied to it. -/
theorem c2_missing_dropped_present_retained (l : List RawRecord) :
    (∀ r ∈ data_cleaning l,
      ∃ o ∈ drop_duplicates l, o.reviewText = some r.raw ∧ r.clean = clean_text r.raw) ∧
    (∀ o ∈ drop_duplicates l, ∀ t, o.reviewText = some t →
      mkCleanRec o t ∈ data_cleaning l) := by
  constructor
  · intro r hr
    obtain ⟨o, ho, rfl⟩ := List.mem_map.mp hr
    have hfil := List.mem_filter.mp ho
    refine ⟨o, hfil.1, ?_, rfl⟩
    obtain ⟨t, ht⟩ := Option.isSome_iff_exists.mp hfil.2
    simp [mkCleanRec, ht]
  · intro o ho t ht
    apply List.mem_map.mpr
    refine ⟨o, List.mem_filter.mpr ⟨ho, by simp [ht]⟩, ?_⟩
    rw [ht]
    rfl

/-- Witness for the C2 theorem: the record with raw text `"!!!"` (which
normalizes to the empty string) is retained in the cleaned corpus. -/
theorem c2_witness :
    (⟨"!!!", "", 3, "P"⟩ : CleanRecord) ∈ data_cleaning [⟨some "!!!", 3, "P"⟩] := by
  have h := (c2_missing_dropped_present_retained [⟨some "!!!", 3, "P"⟩]).2
    ⟨some "!!!", 3, "P"⟩ (by decide) "!!!" rfl
  have he : mkCleanRec ⟨some "!!!", 3, "P"⟩ "!!!" = (⟨"!!!", "", 3, "P"⟩ : CleanRecord) := by
    decide
  exact he ▸ h

/-! ### Exact decimal rounding (Python's `round`) -/

attribute [local semireducible] Rat.add Rat.mul Rat.sub Rat.inv

/-- Round-half-to-even to an integer, Python's `round` rule, on exact
rationals (`Int.fdiv x.num x.den` is `⌊x⌋`). -/
def rhe (x : ℚ) : ℤ :=
  let f : ℤ := Int.fdiv x.num (x.den : ℤ)
  let r : ℚ := x - (f : ℚ)
  if r < 1 / 2 then f
  else if 1 / 2 < r then f + 1
  else if Even f then f else f + 1

/-- Python `round(x, k)` modelled exactly on rationals. -/
def roundTo (k : Nat) (x : ℚ) : ℚ :=
  ((rhe (x * (10 ^ k : ℚ)) : ℤ) : ℚ) / (10 ^ k : ℚ)

example : roundTo 3 (-19 / 6) = -3167 / 1000 := by decide

example : roundTo 2 (40 : ℚ) = 40 := by decide

example : roundTo 0 (7 / 2) = 4 ∧ roundTo 0 (5 / 2) = 2 := by decide

/-! ### Keyword cohort statistics (src/keyword_impact_summary.py) -/

/-- A record of the cleaned table as consumed by
src/keyword_impact_summary.py: cleaned text, star rating, sentiment score
and park branch. -/
structure Review where
  cleanText : String
  rating : ℚ
  sentiment : ℚ
  branch : String
  deriving DecidableEq, Repr

/-- Substring search: does `needle` occur inside the list? -/
def hasSub : List Char → List Char → Bool
  | [], needle => needle.isEmpty
  | h :: t, needle => needle.isPrefixOf (h :: t) || hasSub t needle

/-- Case-insensitive containment, the effect of
`text_series.str.contains(combined_pattern, flags=re.IGNORECASE)` at
src/keyword_impact_summary.py line 63 for one literal alternative. -/
def str_contains (hay pat : String) : Bool :=
  hasSub (hay.data.map pyLower) (pat.data.map pyLower)

/-- The flag builder `build_flag_column` (src/keyword_impact_summary.py lines 56-63) on one
record: 1 iff any pattern of the group occurs in the text (boolean OR over
the alternation, case-insensitive). -/
def build_flag (pats : List String) (r : Review) : Bool :=
  pats.any (fun p => str_contains r.cleanText p)

/-- The configuration `keyword_groups` of src/keyword_impact_summary.py lines 25-50.  All
patterns are regex literals except `rip ?off`, which is expanded into its
two alternatives `ripoff` and `rip off`. -/
def keyword_groups : List (String × List String) :=
  [("wait_time",
    ["wait", "waiting", "queue", "line", "long line", "line was long",
     "queued", "hour line", "1 hour", "2 hours"]),
   ("price_value",
    ["expensive", "price", "overpriced", "too expensive", "ripoff", "rip off",
     "cost a lot", "not worth", "money worth"]),
   ("staff_service",
    ["staff", "crew", "employee", "cast member", "rude", "helpful",
     "friendly", "kind", "service", "attitude"]),
   ("food_quality",
    ["food", "meal", "burger", "fries", "lunch", "dinner", "snack",
     "restaurant", "tasty", "delicious", "bad food"]),
   ("attractions_fun",
    ["ride", "rides", "roller coaster", "attraction", "show", "fireworks",
     "parade", "fun", "amazing", "awesome", "best day"]),
   ("magic_experience",
    ["magical", "magic", "dream", "dreams come true", "happiest place",
     "love disney", "disney magic", "wonderful", "unforgettable"])]

/-- The pattern group configured for a topic name. -/
def patternsOf (topic : String) : List String :=
  (keyword_groups.lookup topic).getD []

/-- Arithmetic mean of a list of rationals (used only under a
nonemptiness guard, exactly like `Series.mean()`). -/
def qmean (l : List ℚ) : ℚ :=
  l.sum / (l.length : ℚ)

/-- pandas `Series.mean()`: NaN (`none`) on an empty series, the mean otherwise. -/
def meanOpt (l : List ℚ) : Option ℚ :=
  if l.length = 0 then none else some (qmean l)

/-- One row of the impact summary, the dict built in the rows loop of
src/keyword_impact_summary.py lines 88-103.  `none` models `np.nan`. -/
structure ImpactRow where
  topic : String
  mentionRate : Option ℚ
  avgRatingM : Option ℚ
  avgRatingN : Option ℚ
  avgSentM : Option ℚ
  avgSentN : Option ℚ
  ratingDiff : Option ℚ
  sentDiff : Option ℚ
  nMentioned : Nat
  nNotMentioned : Nat
  deriving DecidableEq, Repr

/-- The body of the rows loop (src/keyword_impact_summary.py lines 82-105)
for one topic over one scope: partition on the 0/1 flag, then the rounded
means, deltas and partition sizes, with `np.nan` whenever a partition is
empty. -/
def rowFor (scope : List Review) (topic : String) (pats : List String) : ImpactRow :=
  let mentioned := scope.filter (build_flag pats)
  let notMentioned := scope.filter (fun r => !build_flag pats r)
  { topic := topic
    mentionRate :=
      (meanOpt (scope.map (fun r => if build_flag pats r then (1 : ℚ) else 0))).map
        (fun m => roundTo 2 (m * 100))
    avgRatingM :=
      if 0 < mentioned.length then some (roundTo 3 (qmean (mentioned.map (·.rating)))) else none
    avgRatingN :=
      if 0 < notMentioned.length then
        some (roundTo 3 (qmean (notMentioned.map (·.rating)))) else none
    avgSentM :=
      if 0 < mentioned.length then
        some (roundTo 3 (qmean (mentioned.map (·.sentiment)))) else none
    avgSentN :=
      if 0 < notMentioned.length then
        some (roundTo 3 (qmean (notMentioned.map (·.sentiment)))) else none
    ratingDiff :=
      if 0 < mentioned.length ∧ 0 < notMentioned.length then
        some (roundTo 3 (qmean (mentioned.map (·.rating)) - qmean (notMentioned.map (·.rating))))
      else none
    sentDiff :=
      if 0 < mentioned.length ∧ 0 < notMentioned.length then
        some (roundTo 3
          (qmean (mentioned.map (·.sentiment)) - qmean (notMentioned.map (·.sentiment))))
      else none
    nMentioned := mentioned.length
    nNotMentioned := notMentioned.length }

/-- The unsorted overall table: one row per configured topic, in
configuration order (the rows loop of lines 82-105). -/
def impact_rows (recs : List Review) : List ImpactRow :=
  keyword_groups.map (fun g => rowFor recs g.1 g.2)

/-- Comparison used by `sort_values(by="rating_diff")`: ordinary `≤` on
numbers, with NaN (`none`) placed last (`na_position="last"`). -/
def optLe : Option ℚ → Option ℚ → Prop
  | some a, some b => a ≤ b
  | some _, none => True
  | none, some _ => False
  | none, none => True

instance : DecidableRel optLe := fun a b => by
  cases a <;> cases b <;> unfold optLe <;> infer_instance

theorem optLe_refl (o : Option ℚ) : optLe o o := by
  cases o <;> simp [optLe]

/-- Row order of `impact_df.sort_values(by="rating_diff")`
(src/keyword_impact_summary.py line 110). -/
def rowLe (a b : ImpactRow) : Prop :=
  optLe a.ratingDiff b.ratingDiff

instance : DecidableRel rowLe := fun a b =>
  inferInstanceAs (Decidable (optLe a.ratingDiff b.ratingDiff))

instance : IsTotal ImpactRow rowLe :=
  ⟨fun a b => by
    unfold rowLe
    cases a.ratingDiff <;> cases b.ratingDiff <;> simp [optLe, le_total]⟩

instance : IsTrans ImpactRow rowLe :=
  ⟨fun a b c hab hbc => by
    unfold rowLe at *
    cases ha : a.ratingDiff <;> cases hb : b.ratingDiff <;> cases hc : c.ratingDiff <;>
      simp_all [optLe]
    exact le_trans hab hbc⟩

/-- The sort `impact_df.sort_values(by="rating_diff")` (line 110): stable sort,
ascending, NaN last.  The overall table always has exactly the six
configured topics, and numpy's default sort runs plain insertion sort
(which is stable) below its small-array cutoff of 16 elements, so a stable
sort models the sort applied to this table exactly. -/
def impact_df (recs : List Review) : List ImpactRow :=
  List.insertionSort rowLe (impact_rows recs)

/-- One row of the per-branch table (branch_rows loop, lines 138-160). -/
structure BranchImpactRow where
  branch : String
  row : ImpactRow
  deriving DecidableEq, Repr

/-- The distinct branch values, in sorted order, as iterated by
`df.groupby("Branch")` (line 138). -/
def branchKeys (recs : List Review) : List String :=
  List.insertionSort (· ≤ ·) (recs.map (·.branch)).dedup

/-- The per-branch table (src/keyword_impact_summary.py lines 136-162):
for each branch, the same statistics computed over the records of that
branch only. -/
def branch_impact_df (recs : List Review) : List BranchImpactRow :=
  ((branchKeys recs).map (fun b =>
    keyword_groups.map (fun g =>
      BranchImpactRow.mk b (rowFor (recs.filter (fun r => r.branch == b)) g.1 g.2)))).flatten

/-! ### Shape lemmas for the two tables -/

theorem patternsOf_eq : ∀ g ∈ keyword_groups, patternsOf g.1 = g.2 := by decide

theorem mem_impact_df {recs : List Review} {row : ImpactRow} (h : row ∈ impact_df recs) :
    ∃ g ∈ keyword_groups, row = rowFor recs g.1 g.2 := by
  have h' : row ∈ impact_rows recs :=
    (List.perm_insertionSort rowLe (impact_rows recs)).subset h
  obtain ⟨g, hg, rfl⟩ := List.mem_map.mp h'
  exact ⟨g, hg, rfl⟩

theorem mem_branch_impact_df {recs : List Review} {brow : BranchImpactRow}
    (h : brow ∈ branch_impact_df recs) :
    ∃ b, ∃ g ∈ keyword_groups,
      brow = BranchImpactRow.mk b (rowFor (recs.filter (fun r => r.branch == b)) g.1 g.2) := by
  obtain ⟨sub, hsub, hmem⟩ := List.mem_flatten.mp h
  obtain ⟨b, _, rfl⟩ := List.mem_map.mp hsub
  obtain ⟨g, hg, rfl⟩ := List.mem_map.mp hmem
  exact ⟨b, g, hg, rfl⟩

theorem length_filter_add_length_filter_not {α : Type} (p : α → Bool) (l : List α) :
    (l.filter p).length + (l.filter (fun x => !p x)).length = l.length := by
  induction l with
  | nil => rfl
  | cons a t ih =>
    simp only [List.filter_cons]
    cases h : p a <;> simp [h, List.length_cons] <;> omega

theorem sum_indicator {α : Type} (p : α → Bool) (l : List α) :
    (l.map (fun r => if p r then (1 : ℚ) else 0)).sum = ((l.filter p).length : ℚ) := by
  induction l with
  | nil => simp
  | cons a t ih =>
    simp only [List.map_cons, List.sum_cons, List.filter_cons]
    cases h : p a
    · simp [h, ih]
    · simp [h, ih]
      ring

/-! ### C1: the deltas are the partition-mean differences (rounded), NaN on
an empty partition -/

/-- The declarative reading of the claimed delta semantics for one row over
one scope: partition the scope on the row's topic patterns; when both
partitions are inhabited, the deltas are the differences of the partition
means (rounded to 3 decimals, as reported); when either partition is empty,
both deltas are the missing marker. -/
def diffSpec (scope : List Review) (row : ImpactRow) : Prop :=
  ((scope.filter (build_flag (patternsOf row.topic))) ≠ [] →
    (scope.filter (fun r => !build_flag (patternsOf row.topic) r)) ≠ [] →
    row.ratingDiff = some (roundTo 3
      (qmean ((scope.filter (build_flag (patternsOf row.topic))).map (·.rating)) -
        qmean ((scope.filter (fun r => !build_flag (patternsOf row.topic) r)).map (·.rating)))) ∧
    row.sentDiff = some (roundTo 3
      (qmean ((scope.filter (build_flag (patternsOf row.topic))).map (·.sentiment)) -
        qmean ((scope.filter
          (fun r => !build_flag (patternsOf row.topic) r)).map (·.sentiment))))) ∧
  ((scope.filter (build_flag (patternsOf row.topic)) = [] ∨
      scope.filter (fun r => !build_flag (patternsOf row.topic) r) = []) →
    row.ratingDiff = none ∧ row.sentDiff = none)

theorem rowFor_diffSpec (scope : List Review) (t : String) (pats : List String)
    (hp : patternsOf t = pats) : diffSpec scope (rowFor scope t pats) := by
  have htop : (rowFor scope t pats).topic = t := rfl
  unfold diffSpec
  rw [htop, hp]
  constructor
  · intro hm hn
    have hm' : 0 < (scope.filter (build_flag pats)).length := List.length_pos.mpr hm
    have hn' : 0 < (scope.filter (fun r => !build_flag pats r)).length := List.length_pos.mpr hn
    constructor
    · show (if 0 < (scope.filter (build_flag pats)).length ∧
          0 < (scope.filter (fun r => !build_flag pats r)).length then _ else none) = _
      rw [if_pos ⟨hm', hn'⟩]
    · show (if 0 < (scope.filter (build_flag pats)).length ∧
          0 < (scope.filter (fun r => !build_flag pats r)).length then _ else none) = _
      rw [if_pos ⟨hm', hn'⟩]
  · intro h
    have hno : ¬(0 < (scope.filter (build_flag pats)).length ∧
        0 < (scope.filter (fun r => !build_flag pats r)).length) := by
      rcases h with h | h <;> simp [h]
    constructor
    · show (if 0 < (scope.filter (build_flag pats)).length ∧
          0 < (scope.filter (fun r => !build_flag pats r)).length then _ else none) = _
      rw [if_neg hno]
    · show (if 0 < (scope.filter (build_flag pats)).length ∧
          0 < (scope.filter (fun r => !build_flag pats r)).length then _ else none) = _
      rw [if_neg hno]

/-- C1 (amended): in the overall table and in every branch scope of the
per-branch table, the rating delta and the sentiment delta are the
3-decimal rounding of (mentioned-partition mean − not-mentioned-partition
mean), and are the missing marker (`none`, i.e. `np.nan`) whenever either
partition is empty. -/
theorem c1_deltas (recs : List Review) :
    (∀ row ∈ impact_df recs, diffSpec recs row) ∧
    (∀ brow ∈ branch_impact_df recs,
      diffSpec (recs.filter (fun r => r.branch == brow.branch)) brow.row) := by
  constructor
  · intro row hrow
    obtain ⟨g, hg, rfl⟩ := mem_impact_df hrow
    exact rowFor_diffSpec recs g.1 g.2 (patternsOf_eq g hg)
  · intro brow hbrow
    obtain ⟨b, g, hg, rfl⟩ := mem_branch_impact_df hbrow
    exact rowFor_diffSpec _ g.1 g.2 (patternsOf_eq g hg)

/-- A two-review corpus exercising the C1 theorem's hypotheses. -/
def c1WitCorpus : List Review :=
  [⟨"such a long wait", 1, 0, "Paris"⟩, ⟨"lovely day", 5, 1 / 2, "Paris"⟩]

/-- Witness for C1 at a concrete corpus and the wait_time row: both
partitions are inhabited and the reported delta is the rounded difference
of the partition means. -/
theorem c1_witness :
    (rowFor c1WitCorpus "wait_time" (patternsOf "wait_time")).ratingDiff =
      some (roundTo 3
        (qmean ((c1WitCorpus.filter (build_flag (patternsOf "wait_time"))).map (·.rating)) -
          qmean ((c1WitCorpus.filter
            (fun r => !build_flag (patternsOf "wait_time") r)).map (·.rating)))) :=
  (((c1_deltas c1WitCorpus).1 _ (by decide)).1 (by decide) (by decide)).1

/-- A corpus on which the exact mean difference has more than 3 decimals. -/
def c1CexCorpus : List Review :=
  [⟨"such a long wait", 1, 0, "P"⟩, ⟨"nice", 5, 0, "P"⟩,
   ⟨"good", 5, 0, "P"⟩, ⟨"ok", 4, 0, "P"⟩]

/-- C1 counterexample: the reported rating delta is the rounded value
−3.667, not the exact difference of the partition means −11/3, so the delta
does not literally equal mentioned-mean − not-mentioned-mean. -/
theorem c1_counterexample :
    (rowFor c1CexCorpus "wait_time" (patternsOf "wait_time")).ratingDiff =
      some (-3667 / 1000) ∧
    qmean ((c1CexCorpus.filter (build_flag (patternsOf "wait_time"))).map (·.rating)) -
      qmean ((c1CexCorpus.filter
        (fun r => !build_flag (patternsOf "wait_time") r)).map (·.rating)) = -11 / 3 ∧
    ((-3667 : ℚ) / 1000) ≠ -11 / 3 := by decide

/-! ### C6: the overall table is sorted ascending by rating delta, stably -/

theorem filter_orderedInsert {α : Type} (r : α → α → Prop) [DecidableRel r] (p : α → Bool)
    (hpr : ∀ x y, p x = true → p y = true → r x y) (a : α) :
    ∀ l : List α, (l.orderedInsert r a).filter p =
      if p a then a :: l.filter p else l.filter p := by
  intro l
  induction l with
  | nil =>
    simp only [List.orderedInsert_nil]
    cases hpa : p a <;> simp [List.filter_cons, hpa]
  | cons b t ih =>
    by_cases hr : r a b
    · simp only [List.orderedInsert, if_pos hr]
      cases hpa : p a <;> simp [List.filter_cons, hpa]
    · simp only [List.orderedInsert, if_neg hr]
      cases hpa : p a
      · cases hpb : p b <;> simp [List.filter_cons, hpa, hpb, ih]
      · cases hpb : p b
        · simp [List.filter_cons, hpa, hpb, ih]
        · exact absurd (hpr a b hpa hpb) hr

theorem filter_insertionSort {α : Type} (r : α → α → Prop) [DecidableRel r] (p : α → Bool)
    (hpr : ∀ x y, p x = true → p y = true → r x y) :
    ∀ l : List α, (List.insertionSort r l).filter p = l.filter p := by
  intro l
  induction l with
  | nil => rfl
  | cons a t ih =>
    simp only [List.insertionSort]
    rw [filter_orderedInsert r p hpr a]
    cases hpa : p a <;> simp [List.filter_cons, hpa, ih]

/-- C6 (confirmed): the final overall table is sorted ascending by rating
delta under the NaN-last order used by `sort_values`, and the sort is
stable: within each rating-delta value the rows keep the order of
`impact_rows`, which lists topics in configuration order.  (numpy's default
sort on a table of six rows is its small-array insertion sort, which is
stable, so the stable model is exact here.) -/
theorem c6_sorted_stable (recs : List Review) :
    (impact_df recs).Sorted rowLe ∧
    ∀ v : Option ℚ,
      (impact_df recs).filter (fun row => row.ratingDiff == v) =
        (impact_rows recs).filter (fun row => row.ratingDiff == v) := by
  constructor
  · exact List.sorted_insertionSort rowLe (impact_rows recs)
  · intro v
    apply filter_insertionSort
    intro x y hx hy
    unfold rowLe
    rw [beq_iff_eq] at hx hy
    rw [hx, hy]
    exact optLe_refl v

/-! ### C9: the concrete five-review scenario -/

/-- The spec's end-to-end scenario: five records with ratings
[5, 1, 5, 2, 4]; the wait_time patterns match exactly the records rated
1 ("wait") and 2 ("queue"). -/
def c9Corpus : List Review :=
  [⟨"a lovely visit", 5, 0, "Paris"⟩,
   ⟨"such a long wait", 1, 0, "Paris"⟩,
   ⟨"happy trip", 5, 0, "Paris"⟩,
   ⟨"the queue again", 2, 0, "Paris"⟩,
   ⟨"good parade", 4, 0, "Paris"⟩]

/-- C9 (amended): on the scenario corpus the wait_time row carries
mention rate 40%, mentioned mean 1.5, not-mentioned mean 4.667 (the
3-decimal rounding of 14/3), and rating delta −3.167 (the 3-decimal
rounding of 1.5 − 14/3). -/
theorem c9_scenario :
    rowFor c9Corpus "wait_time" (patternsOf "wait_time") =
      { topic := "wait_time"
        mentionRate := some 40
        avgRatingM := some (3 / 2)
        avgRatingN := some (4667 / 1000)
        avgSentM := some 0
        avgSentN := some 0
        ratingDiff := some (-3167 / 1000)
        sentDiff := some 0
        nMentioned := 2
        nNotMentioned := 3 } := by decide

/-- C9 counterexample: the reported not-mentioned average is the rounded
4667/1000, which is not the exact partition mean 14/3 stated by the
claim. -/
theorem c9_counterexample :
    (rowFor c9Corpus "wait_time" (patternsOf "wait_time")).avgRatingN =
      some (4667 / 1000) ∧
    qmean ((c9Corpus.filter
      (fun r => !build_flag (patternsOf "wait_time") r)).map (·.rating)) = 14 / 3 ∧
    ((4667 : ℚ) / 1000) ≠ 14 / 3 := by decide

/-! ### C10: partitions are exhaustive and disjoint; the mention rate -/

/-- The declarative partition-count/mention-rate property for one row over
one scope: the two partition sizes add up to the scope size, and the
reported mention rate is 100 · nMentioned / scope size (rounded to two
decimals as reported), or the missing marker when the scope is empty. -/
def rateSpec (scope : List Review) (row : ImpactRow) : Prop :=
  row.nMentioned + row.nNotMentioned = scope.length ∧
  (scope ≠ [] → row.mentionRate =
    some (roundTo 2 ((100 * (row.nMentioned : ℚ)) / (scope.length : ℚ)))) ∧
  (scope = [] → row.mentionRate = none)

theorem rowFor_rateSpec (scope : List Review) (t : String) (pats : List String) :
    rateSpec scope (rowFor scope t pats) := by
  refine ⟨length_filter_add_length_filter_not (build_flag pats) scope, ?_, ?_⟩
  · intro hne
    have hlen : (scope.map (fun r => if build_flag pats r then (1 : ℚ) else 0)).length =
        scope.length := List.length_map _ _
    have hpos : scope.length ≠ 0 := fun h => hne (List.length_eq_zero.mp h)
    have hcast : ((scope.length : ℚ)) ≠ 0 := Nat.cast_ne_zero.mpr hpos
    have harg : qmean (scope.map (fun r => if build_flag pats r then (1 : ℚ) else 0)) * 100 =
        (100 * (((scope.filter (build_flag pats)).length : ℕ) : ℚ)) / (scope.length : ℚ) := by
      unfold qmean
      rw [hlen, sum_indicator]
      field_simp
      ring
    show (meanOpt (scope.map (fun r => if build_flag pats r then (1 : ℚ) else 0))).map
        (fun m => roundTo 2 (m * 100)) = _
    unfold meanOpt
    rw [hlen, if_neg hpos]
    simp only [Option.map_some']
    rw [harg]
    rfl
  · intro hnil
    subst hnil
    rfl

/-- C10 (amended): for every row of the overall table and of the per-branch
table, mentioned and not-mentioned partition sizes add up to the scope
size (the partitions are exhaustive and disjoint), and the reported mention
rate is the 2-decimal rounding of 100 · nMentioned / scope size (missing
when the scope is empty). -/
theorem c10_partition (recs : List Review) :
    (∀ row ∈ impact_df recs, rateSpec recs row) ∧
    (∀ brow ∈ branch_impact_df recs,
      rateSpec (recs.filter (fun r => r.branch == brow.branch)) brow.row) := by
  constructor
  · intro row hrow
    obtain ⟨g, _, rfl⟩ := mem_impact_df hrow
    exact rowFor_rateSpec recs g.1 g.2
  · intro brow hbrow
    obtain ⟨b, g, _, rfl⟩ := mem_branch_impact_df hbrow
    exact rowFor_rateSpec _ g.1 g.2

/-- Witness for C10 at the scenario corpus and the wait_time row: the
partition sizes add up to the corpus size and the reported rate is the
rounded 100·nMentioned/total. -/
theorem c10_witness :
    (rowFor c9Corpus "wait_time" (patternsOf "wait_time")).nMentioned +
      (rowFor c9Corpus "wait_time" (patternsOf "wait_time")).nNotMentioned =
        c9Corpus.length ∧
    (rowFor c9Corpus "wait_time" (patternsOf "wait_time")).mentionRate =
      some (roundTo 2 ((100 *
        ((rowFor c9Corpus "wait_time" (patternsOf "wait_time")).nMentioned : ℚ)) /
          (c9Corpus.length : ℚ))) :=
  ⟨((c10_partition c9Corpus).1 _ (by decide)).1,
    ((c10_partition c9Corpus).1 _ (by decide)).2.1 (by decide)⟩

/-- A three-review corpus with one mention: the exact rate 100/3 has more
than two decimals. -/
def c10CexCorpus : List Review :=
  [⟨"such a long wait", 1, 0, "P"⟩, ⟨"nice", 5, 0, "P"⟩, ⟨"good", 5, 0, "P"⟩]

/-- C10 counterexample: the reported mention rate is the rounded 33.33,
not the exact 100 · 1 / 3 stated by the claim. -/
theorem c10_counterexample :
    (rowFor c10CexCorpus "wait_time" (patternsOf "wait_time")).mentionRate =
      some (3333 / 100) ∧
    (rowFor c10CexCorpus "wait_time" (patternsOf "wait_time")).nMentioned = 1 ∧
    c10CexCorpus.length = 3 ∧
    ((3333 : ℚ) / 100) ≠ 100 * 1 / 3 := by decide

/-! ### C5: vocabulary selection of the TF-IDF vectorizer
(src/PCA_analysis.py lines 33-40)

Documents are represented by their token lists (sklearn's token extraction,
n-gram expansion and stopword removal happen upstream of vocabulary
selection and are not at issue in this claim).  `fit` first collects the
distinct terms in encounter order, then alphabetizes the vocabulary
(`_sort_features`), and `max_features=K` then keeps the top K terms ranked
by total count across the corpus (`_limit_features`).  The ranking argsort
is numpy's default unstable quicksort, so the arrangement of equal-count
ties is implementation-defined; the pruning is therefore modelled
relationally, over every count-descending arrangement of the candidate
terms, and only properties shared by all such arrangements are claimed in
general. -/

/-- Keep the first occurrence of every value (encounter order), dropping
values already in `seen`. -/
def dedupFirstAux {α : Type} [DecidableEq α] : List α → List α → List α
  | _, [] => []
  | seen, a :: t =>
    if a ∈ seen then dedupFirstAux seen t else a :: dedupFirstAux (a :: seen) t

/-- The distinct values of a list in first-seen order. -/
def dedupFirst {α : Type} [DecidableEq α] (l : List α) : List α :=
  dedupFirstAux [] l

theorem mem_dedupFirstAux {α : Type} [DecidableEq α] {x : α} :
    ∀ (l seen : List α), x ∈ dedupFirstAux seen l ↔ (x ∈ l ∧ x ∉ seen) := by
  intro l
  induction l with
  | nil => intro seen; simp [dedupFirstAux]
  | cons a t ih =>
    intro seen
    by_cases h : a ∈ seen
    · rw [dedupFirstAux, if_pos h, ih]
      constructor
      · rintro ⟨h1, h2⟩
        exact ⟨List.mem_cons_of_mem a h1, h2⟩
      · rintro ⟨h1, h2⟩
        rcases List.mem_cons.mp h1 with rfl | h1'
        · exact absurd h h2
        · exact ⟨h1', h2⟩
    · rw [dedupFirstAux, if_neg h]
      constructor
      · intro hx
        rcases List.mem_cons.mp hx with rfl | hx'
        · exact ⟨List.mem_cons_self _ _, h⟩
        · obtain ⟨h1, h2⟩ := (ih (a :: seen)).mp hx'
          exact ⟨List.mem_cons_of_mem a h1,
            fun hc => h2 (List.mem_cons_of_mem a hc)⟩
      · rintro ⟨h1, h2⟩
        by_cases hxa : x = a
        · subst hxa
          exact List.mem_cons_self _ _
        · rcases List.mem_cons.mp h1 with rfl | h1'
          · exact absurd rfl hxa
          · exact List.mem_cons_of_mem a ((ih (a :: seen)).mpr
              ⟨h1', fun hc => (List.mem_cons.mp hc).elim hxa h2⟩)

theorem mem_dedupFirst {α : Type} [DecidableEq α] {x : α} {l : List α} :
    x ∈ dedupFirst l ↔ x ∈ l := by
  unfold dedupFirst
  rw [mem_dedupFirstAux]
  simp

/-- Computable lexicographic comparison of character lists by code point,
Python's string order as used by sklearn's vocabulary alphabetization. -/
def lexLeB : List Char → List Char → Bool
  | [], _ => true
  | _ :: _, [] => false
  | a :: as, b :: bs => if a < b then true else if b < a then false else lexLeB as bs

/-- Lexicographic order on strings. -/
def strLe (s t : String) : Prop :=
  lexLeB s.data t.data = true

instance : DecidableRel strLe := fun s t =>
  inferInstanceAs (Decidable (lexLeB s.data t.data = true))

theorem lexLeB_total : ∀ a b : List Char, lexLeB a b = true ∨ lexLeB b a = true := by
  intro a
  induction a with
  | nil => intro b; left; rfl
  | cons x as ih =>
    intro b
    cases b with
    | nil => right; rfl
    | cons y bs =>
      rcases lt_trichotomy x y with h | h | h
      · left
        simp [lexLeB, h]
      · subst h
        rcases ih bs with h' | h'
        · left
          simp [lexLeB, lt_irrefl, h']
        · right
          simp [lexLeB, lt_irrefl, h']
      · right
        simp [lexLeB, h]

theorem lexLeB_trans :
    ∀ a b c : List Char, lexLeB a b = true → lexLeB b c = true → lexLeB a c = true := by
  intro a
  induction a with
  | nil => intro b c _ _; rfl
  | cons x as ih =>
    intro b c h1 h2
    cases b with
    | nil => simp [lexLeB] at h1
    | cons y bs =>
      cases c with
      | nil => simp [lexLeB] at h2
      | cons z cs =>
        simp only [lexLeB] at h1 h2 ⊢
        rcases lt_trichotomy x y with hxy | hxy | hxy
        · rcases lt_trichotomy y z with hyz | hyz | hyz
          · simp [lt_trans hxy hyz]
          · subst hyz
            simp [hxy]
          · rw [if_neg (lt_asymm hyz), if_pos hyz] at h2
            exact absurd h2 (by simp)
        · subst hxy
          rcases lt_trichotomy x z with hyz | hyz | hyz
          · simp [hyz]
          · subst hyz
            rw [if_neg (lt_irrefl x), if_neg (lt_irrefl x)] at h1 h2 ⊢
            exact ih bs cs h1 h2
          · rw [if_neg (lt_asymm hyz), if_pos hyz] at h2
            exact absurd h2 (by simp)
        · rw [if_neg (lt_asymm hxy), if_pos hxy] at h1
          exact absurd h1 (by simp)

instance : IsTotal String strLe :=
  ⟨fun s t => lexLeB_total s.data t.data⟩

instance : IsTrans String strLe :=
  ⟨fun s t u => lexLeB_trans s.data t.data u.data⟩

/-- Total number of occurrences of a term across the corpus, the score
`max_features` ranks by ("ordered by term frequency across the corpus"). -/
def totalCount (docs : List (List String)) (t : String) : Nat :=
  docs.flatten.count t

/-- The alphabetized distinct terms of the corpus, sklearn's vocabulary
before `max_features` pruning. -/
def allTermsSorted (docs : List (List String)) : List String :=
  List.insertionSort strLe (dedupFirst docs.flatten)

/-- Ranking used to keep the top `max_features` terms: higher corpus count
first, alphabetical order on ties. -/
def byScore (docs : List (List String)) (t u : String) : Prop :=
  totalCount docs u < totalCount docs t ∨
    (totalCount docs t = totalCount docs u ∧ strLe t u)

instance (docs : List (List String)) : DecidableRel (byScore docs) := fun t u =>
  inferInstanceAs (Decidable (totalCount docs u < totalCount docs t ∨
    (totalCount docs t = totalCount docs u ∧ strLe t u)))

instance (docs : List (List String)) : IsTotal String (byScore docs) :=
  ⟨fun t u => by
    unfold byScore
    rcases lt_trichotomy (totalCount docs t) (totalCount docs u) with h | h | h
    · right; left; exact h
    · rcases total_of strLe t u with h' | h'
      · left; right; exact ⟨h, h'⟩
      · right; right; exact ⟨h.symm, h'⟩
    · left; left; exact h⟩

instance (docs : List (List String)) : IsTrans String (byScore docs) :=
  ⟨fun t u v h1 h2 => by
    unfold byScore at *
    rcases h1 with h1 | ⟨h1e, h1s⟩ <;> rcases h2 with h2 | ⟨h2e, h2s⟩
    · left; omega
    · left; omega
    · left; omega
    · right; exact ⟨by omega, lexLeB_trans _ _ _ h1s h2s⟩⟩

/-- The count-dominance relation: `t` occurs in the corpus at least as
often as `u`.  A count-descending arrangement is a list sorted by it. -/
def countGe (docs : List (List String)) (t u : String) : Prop :=
  totalCount docs u ≤ totalCount docs t

instance (docs : List (List String)) : DecidableRel (countGe docs) := fun t u =>
  inferInstanceAs (Decidable (totalCount docs u ≤ totalCount docs t))

/-- The `max_features` pruning (`_limit_features`), modelled relationally:
`(-tfs).argsort()[:K]` keeps the first K indices of a count-descending
arrangement of the alphabetized candidate terms, but numpy's default
argsort is not a stable sort, so which arrangement of equal-count ties it
produces is implementation-defined.  `kept` is a possible outcome of the
pruning iff it is the K-prefix of some count-descending arrangement; the
code's actual output is one such outcome, whichever its argsort picks. -/
def limitFeatures (docs : List (List String)) (K : Nat) (kept : List String) : Prop :=
  ∃ perm : List String, List.Perm perm (allTermsSorted docs) ∧
    List.Sorted (countGe docs) perm ∧ kept = perm.take K

/-- One concrete outcome of the pruning: rank by count with alphabetical
tie order.  For candidate arrays shorter than numpy's insertion-sort
cutoff of 16 elements this is exactly the code's outcome, because the
default argsort then runs a plain insertion sort, which is stable over the
alphabetized candidates; for larger arrays only `limitFeatures` is
asserted about the code. -/
def argsortSmallKept (K : Nat) (docs : List (List String)) : List String :=
  (List.insertionSort (byScore docs) (allTermsSorted docs)).take K

theorem argsortSmallKept_limitFeatures (K : Nat) (docs : List (List String)) :
    limitFeatures docs K (argsortSmallKept K docs) := by
  refine ⟨List.insertionSort (byScore docs) (allTermsSorted docs),
    List.perm_insertionSort (byScore docs) _, ?_, rfl⟩
  have hs : List.Sorted (byScore docs)
      (List.insertionSort (byScore docs) (allTermsSorted docs)) :=
    List.sorted_insertionSort (byScore docs) _
  refine List.Pairwise.imp ?_ hs
  intro t u h
  rcases h with h | ⟨he, _⟩
  · exact Nat.le_of_lt h
  · exact Nat.le_of_eq he.symm

/-- C5 (amended): for every corpus, cap K, and possible outcome of the
`max_features` pruning, the kept vocabulary has size at most K, contains
only corpus terms, and is selected by the corpus-wide total-count score:
every kept term's count is at least every dropped corpus term's count.
These properties hold for every count-descending arrangement, hence in
particular for the one the code's argsort actually produces; the order
among equal counts themselves is implementation-defined, and is not
first-seen order (see the counterexample). -/
theorem c5_vocab (K : Nat) (docs : List (List String)) (kept : List String)
    (h : limitFeatures docs K kept) :
    kept.length ≤ K ∧
    (∀ t ∈ kept, t ∈ docs.flatten) ∧
    (∀ t ∈ kept, ∀ u ∈ docs.flatten, u ∉ kept →
      totalCount docs u ≤ totalCount docs t) := by
  obtain ⟨perm, hperm, hsorted, rfl⟩ := h
  refine ⟨List.length_take_le K perm, ?_, ?_⟩
  · intro t ht
    have h1 : t ∈ perm := List.take_subset K perm ht
    have h2 : t ∈ allTermsSorted docs := hperm.subset h1
    exact mem_dedupFirst.mp ((List.perm_insertionSort strLe _).subset h2)
  · intro t ht u hu hnot
    have hus : u ∈ perm := hperm.symm.subset
      ((List.perm_insertionSort strLe _).symm.subset (mem_dedupFirst.mpr hu))
    have hud : u ∈ perm.drop K := by
      rcases List.mem_append.mp (by rw [List.take_append_drop K perm]; exact hus) with h' | h'
      · exact absurd h' hnot
      · exact h'
    have hp : (perm.take K ++ perm.drop K).Pairwise (countGe docs) := by
      rw [List.take_append_drop K perm]
      exact hsorted
    exact (List.pairwise_append.mp hp).2.2 t ht u hud

/-- The spec's selection rule, modelled from its words: keep the top K
terms by the corpus-wide score with ties broken by first-seen order
(a stable descending sort over the terms in encounter order). -/
def specFirstSeenVocab (K : Nat) (docs : List (List String)) : List String :=
  (List.insertionSort (fun t u => totalCount docs u ≤ totalCount docs t)
    (dedupFirst docs.flatten)).take K

/-- C5 counterexample: with cap 1 over the corpus [["zebra"], ["apple"]]
both terms have count 1.  The candidate array ["apple", "zebra"] has two
elements, far below numpy's insertion-sort cutoff, so on this input the
code's argsort is the stable small-array case and the code keeps "apple" —
while the claimed first-seen tie-break keeps "zebra". -/
theorem c5_counterexample :
    argsortSmallKept 1 [["zebra"], ["apple"]] = ["apple"] ∧
    specFirstSeenVocab 1 [["zebra"], ["apple"]] = ["zebra"] ∧
    (["apple"] : List String) ≠ ["zebra"] := by decide

/-- Witness for C5: ["apple"] is a possible pruning outcome on the
two-term corpus with cap 1, and the kept term's corpus count dominates the
dropped term's. -/
theorem c5_witness :
    totalCount [["zebra"], ["apple"]] "zebra" ≤
      totalCount [["zebra"], ["apple"]] "apple" :=
  (c5_vocab 1 [["zebra"], ["apple"]] ["apple"]
      ⟨allTermsSorted [["zebra"], ["apple"]], List.Perm.refl _, by decide, by decide⟩).2.2
    "apple" (by decide) "zebra" (by decide) (by decide)

/-! ### C4: the TF-IDF weight matrix (src/PCA_analysis.py lines 33-39)

`TfidfVectorizer` is called with its default weighting options, i.e.
`smooth_idf=True`, `sublinear_tf=False`, `norm="l2"`: the raw cell weight
is `tf(doc, term) * (ln((1 + N) / (1 + df(term))) + 1)` and each row is
L2-normalized afterwards, rows of zero norm being left as zero (sklearn's
documented behaviour of `normalize`). -/

/-- Term frequency: raw count of the term in the document. -/
def tf (d : List String) (t : String) : Nat :=
  d.count t

/-- Document frequency: number of corpus documents containing the term. -/
def docFreq (docs : List (List String)) (t : String) : Nat :=
  (docs.filter (fun d => d.contains t)).length

/-- The idf factor actually applied by the code's vectorizer (sklearn
default `smooth_idf=True`): `ln((1 + N) / (1 + df)) + 1`. -/
noncomputable def smoothIdf (docs : List (List String)) (t : String) : ℝ :=
  Real.log ((1 + (docs.length : ℝ)) / (1 + (docFreq docs t : ℝ))) + 1

/-- The raw (pre-normalization) TF-IDF row of one document. -/
noncomputable def rawRow (docs : List (List String)) (vocab : List String)
    (d : List String) : List ℝ :=
  vocab.map (fun t => (tf d t : ℝ) * smoothIdf docs t)

/-- Sum of squares of a row. -/
noncomputable def sumSq (l : List ℝ) : ℝ :=
  (l.map (fun x => x * x)).sum

open Classical in
/-- sklearn's `normalize(..., norm="l2")` on one row: divide by the
Euclidean norm, leaving zero rows untouched. -/
noncomputable def l2normalize (row : List ℝ) : List ℝ :=
  if sumSq row = 0 then row else row.map (fun x => x / Real.sqrt (sumSq row))

/-- The weight matrix produced by `vectorizer.fit_transform` for a given
vocabulary: one L2-normalized TF-IDF row per document. -/
noncomputable def tfidfMatrix (docs : List (List String)) (vocab : List String) :
    List (List ℝ) :=
  docs.map (fun d => l2normalize (rawRow docs vocab d))

/-- The cell formula in the words of the spec:
`termFrequency(doc, term) * log(N / documentFrequency(term))`, rows
L2-normalized.  (Stated for comparison with the code's matrix.) -/
noncomputable def specMatrix (docs : List (List String)) (vocab : List String) :
    List (List ℝ) :=
  docs.map (fun d => l2normalize (vocab.map (fun t =>
    (tf d t : ℝ) * Real.log ((docs.length : ℝ) / (docFreq docs t : ℝ)))))

theorem sumSq_nonneg (l : List ℝ) : 0 ≤ sumSq l := by
  apply List.sum_nonneg
  intro x hx
  obtain ⟨y, _, rfl⟩ := List.mem_map.mp hx
  exact mul_self_nonneg y

theorem sumSq_pos_of_mem_ne {l : List ℝ} {x : ℝ} (hx : x ∈ l) (hne : x ≠ 0) :
    0 < sumSq l := by
  obtain ⟨s, t, rfl⟩ := List.append_of_mem hx
  unfold sumSq
  rw [List.map_append, List.sum_append, List.map_cons, List.sum_cons]
  have h1 : 0 ≤ ((s.map (fun x => x * x)).sum) := sumSq_nonneg s
  have h2 : 0 ≤ ((t.map (fun x => x * x)).sum) := sumSq_nonneg t
  have h3 : 0 < x * x := mul_self_pos.mpr hne
  linarith

theorem sumSq_map_div (l : List ℝ) (c : ℝ) :
    sumSq (l.map (fun x => x / c)) = sumSq l / (c * c) := by
  induction l with
  | nil => simp [sumSq]
  | cons a t ih =>
    unfold sumSq at *
    simp only [List.map_cons, List.sum_cons]
    rw [ih, div_mul_div_comm, div_add_div_same]

theorem length_l2normalize (v : List ℝ) : (l2normalize v).length = v.length := by
  unfold l2normalize
  split
  · rfl
  · exact List.length_map v _

theorem sumSq_l2normalize_of_ne {v : List ℝ} (h : ¬ sumSq v = 0) :
    sumSq (l2normalize v) = 1 := by
  have hpos : 0 < sumSq v := lt_of_le_of_ne (sumSq_nonneg v) (Ne.symm h)
  unfold l2normalize
  rw [if_neg h, sumSq_map_div, Real.mul_self_sqrt (le_of_lt hpos)]
  exact div_self h

/-- C4 (amended): for every corpus, vocabulary and document of the corpus,
the document's matrix row is the L2-normalization of the raw row whose
j-th cell is `tf(doc, vocab_j) * (ln((1+N)/(1+df(vocab_j))) + 1)`; a
nonzero raw row is normalized to unit sum of squares, and a document
containing no vocabulary term yields the zero row. -/
theorem c4_tfidf (docs : List (List String)) (vocab : List String) (d : List String)
    (hd : d ∈ docs) :
    l2normalize (rawRow docs vocab d) ∈ tfidfMatrix docs vocab ∧
    (∀ j : Nat, (rawRow docs vocab d)[j]? = (vocab[j]?).map (fun t =>
      (tf d t : ℝ) * (Real.log ((1 + (docs.length : ℝ)) / (1 + (docFreq docs t : ℝ))) + 1))) ∧
    (rawRow docs vocab d ≠ List.replicate vocab.length 0 →
      sumSq (l2normalize (rawRow docs vocab d)) = 1) ∧
    ((∀ t ∈ vocab, tf d t = 0) →
      l2normalize (rawRow docs vocab d) = List.replicate vocab.length 0) := by
  refine ⟨List.mem_map.mpr ⟨d, hd, rfl⟩, ?_, ?_, ?_⟩
  · intro j
    unfold rawRow smoothIdf
    rw [List.getElem?_map]
  · intro hne
    apply sumSq_l2normalize_of_ne
    intro h0
    apply hne
    have hlen : (rawRow docs vocab d).length = vocab.length := List.length_map _ _
    rw [List.eq_replicate_iff]
    refine ⟨hlen, ?_⟩
    intro b hb
    by_contra hb0
    exact absurd h0 (ne_of_gt (sumSq_pos_of_mem_ne hb hb0))
  · intro hz
    have hzero : rawRow docs vocab d = List.replicate vocab.length 0 := by
      unfold rawRow
      have hc : ∀ t ∈ vocab, ((tf d t : ℝ) * smoothIdf docs t) = (fun _ => (0 : ℝ)) t := by
        intro t ht
        rw [hz t ht]
        simp
      rw [List.map_congr_left hc, List.map_const']
    rw [hzero]
    have hsum : sumSq (List.replicate vocab.length (0 : ℝ)) = 0 := by
      unfold sumSq
      rw [List.map_replicate]
      simp
    unfold l2normalize
    rw [if_pos hsum]

theorem rawRow_cat : rawRow [["cat"]] ["cat"] ["cat"] = [1] := by
  have hdf : docFreq [["cat"]] "cat" = 1 := by decide
  have htf : tf ["cat"] "cat" = 1 := by decide
  unfold rawRow smoothIdf
  simp only [List.map_cons, List.map_nil]
  rw [htf, hdf]
  norm_num [Real.log_one]

theorem sumSq_one : sumSq [(1 : ℝ)] = 1 := by
  unfold sumSq
  norm_num

/-- C4 counterexample: on the one-document corpus [["cat"]] the code's
matrix cell is 1 (smooth idf: ln(2/2) + 1 = 1), while the claimed formula
`tf * log(N / df)` gives log(1/1) = 0; the matrices differ. -/
theorem c4_counterexample :
    tfidfMatrix [["cat"]] ["cat"] = [[1]] ∧
    specMatrix [["cat"]] ["cat"] = [[0]] ∧
    ([[(1 : ℝ)]] : List (List ℝ)) ≠ [[0]] := by
  refine ⟨?_, ?_, by norm_num⟩
  · unfold tfidfMatrix
    simp only [List.map_cons, List.map_nil]
    rw [rawRow_cat]
    unfold l2normalize
    rw [sumSq_one]
    rw [if_neg one_ne_zero]
    norm_num
  · have hdf : docFreq [["cat"]] "cat" = 1 := by decide
    have htf : tf ["cat"] "cat" = 1 := by decide
    have hcell : ((tf ["cat"] "cat" : ℝ) *
        Real.log ((([["cat"]] : List (List String)).length : ℝ) /
          (docFreq [["cat"]] "cat" : ℝ))) = 0 := by
      rw [htf, hdf]
      norm_num [Real.log_one]
    unfold specMatrix
    simp only [List.map_cons, List.map_nil]
    rw [hcell]
    unfold l2normalize
    have h0 : sumSq [(0 : ℝ)] = 0 := by
      unfold sumSq
      norm_num
    rw [if_pos h0]

/-- Witness for C4 at the one-document corpus: the cell equation at index 0
and the unit norm of the normalized nonzero row. -/
theorem c4_witness :
    ((rawRow [["cat"]] ["cat"] ["cat"])[0]? = (((["cat"] : List String))[0]?).map (fun t =>
      (tf ["cat"] t : ℝ) *
        (Real.log ((1 + (([["cat"]] : List (List String)).length : ℝ)) /
          (1 + (docFreq [["cat"]] t : ℝ))) + 1))) ∧
    sumSq (l2normalize (rawRow [["cat"]] ["cat"] ["cat"])) = 1 := by
  constructor
  · exact (c4_tfidf [["cat"]] ["cat"] ["cat"] (by decide)).2.1 0
  · apply (c4_tfidf [["cat"]] ["cat"] ["cat"] (by decide)).2.2.1
    rw [rawRow_cat]
    norm_num [List.replicate]

/-! ### C7: PCA on degenerate input (src/PCA_analysis.py lines 50-54) -/

/-- The error sklearn raises when `n_components` exceeds the data rank
bound. -/
def pcaErrMsg : String :=
  "n_components=2 must be between 0 and min(n_samples, n_features)"

/-- Models the argument validation `PCA(n_components=2).fit` performs
before decomposing: with an integer `n_components`, sklearn raises a
ValueError unless `n_components ≤ min(n_samples, n_features)`.  The
eigendecomposition on accepted shapes is not modelled; this claim is only
about whether degenerate shapes fail or produce zero-padded output. -/
def pcaValidate (nSamples nFeatures : Nat) : Except String Unit :=
  if 2 ≤ min nSamples nFeatures then Except.ok () else Except.error pcaErrMsg

/-- The call `pca.fit_transform(X_dense)` (line 54) on a dense matrix given as a
list of rows: validate the shape. -/
def pcaOnMatrix (X : List (List ℝ)) : Except String Unit :=
  pcaValidate X.length (X.headD []).length

/-- The vocabulary `fit` produces on a corpus with at most 500 distinct
terms — the situation of every corpus this development evaluates the
pipeline on: `_limit_features` prunes only when the candidate count
exceeds `max_features`, so here the vocabulary is just the alphabetized
distinct terms.  (Pruning above the cap is modelled by `limitFeatures`.) -/
def fitVocabulary (docs : List (List String)) : List String :=
  allTermsSorted docs

/-- The call `vectorizer.fit_transform(df["Clean_Text"])` (line 39): sklearn raises
a ValueError when the corpus yields an empty vocabulary, in particular on
an empty corpus. -/
noncomputable def vectorize (docs : List (List String)) :
    Except String (List (List ℝ)) :=
  if fitVocabulary docs = [] then Except.error "empty vocabulary"
  else Except.ok (tfidfMatrix docs (fitVocabulary docs))

/-- Lines 39-54 of src/PCA_analysis.py: vectorize the corpus, then run
2-component PCA on the dense matrix. -/
noncomputable def pca_pipeline (docs : List (List String)) : Except String Unit :=
  match vectorize docs with
  | Except.error e => Except.error e
  | Except.ok X => pcaOnMatrix X

/-- C7: the code evaluated at the failing inputs.  A single one-term review
gives a 1×1 matrix and PCA with `n_components=2` raises a ValueError; an
empty corpus already makes the vectorizer raise.  Neither input produces
the zero-padded two-component output the claim describes. -/
theorem c7_degenerate_raises :
    pca_pipeline [["cat"]] = Except.error pcaErrMsg ∧
    pca_pipeline [] = Except.error "empty vocabulary" := by
  constructor
  · have hv : fitVocabulary [["cat"]] = ["cat"] := by decide
    unfold pca_pipeline vectorize
    rw [hv]
    rw [if_neg (by simp : ¬(["cat"] : List String) = [])]
    show pcaOnMatrix (tfidfMatrix [["cat"]] ["cat"]) = Except.error pcaErrMsg
    have h1 : (tfidfMatrix [["cat"]] ["cat"]).length = 1 := by
      unfold tfidfMatrix
      simp
    have h2 : ((tfidfMatrix [["cat"]] ["cat"]).headD []).length = 1 := by
      unfold tfidfMatrix
      simp only [List.map_cons, List.map_nil, List.headD_cons]
      rw [length_l2normalize]
      unfold rawRow
      simp
    unfold pcaOnMatrix
    rw [h1, h2]
    unfold pcaValidate
    norm_num
  · have hv : fitVocabulary ([] : List (List String)) = [] := by decide
    unfold pca_pipeline vectorize
    rw [hv]
    rfl

/-! ### C8: SentimentScorer (src/data_cleaning.py lines 25-28) -/

/-- Split a character list on spaces (accumulator holds the current word
reversed). -/
def splitWordsAux : List Char → List Char → List (List Char)
  | [], cur => [cur.reverse]
  | c :: rest, cur =>
    if c = ' ' then cur.reverse :: splitWordsAux rest []
    else splitWordsAux rest (c :: cur)

/-- Modelled from the spec: `get_sentiment` (src/data_cleaning.py lines
25-26) delegates to `TextBlob(text).sentiment.polarity`, whose
implementation lives in the textblob library outside this repository.
Following the spec's description of the scorer — a static lexicon-based,
non-trainable method — the model averages the lexicon polarities of the
words occurring in the text and returns the neutral constant 0 when no
lexicon word occurs (in particular on empty text). -/
def sentVals (lex : List (String × ℚ)) (text : String) : List ℚ :=
  ((splitWordsAux text.data []).filter (fun w => !w.isEmpty)).filterMap
    (fun w => lex.lookup (⟨w⟩ : String))

/-- The polarity score: the mean of the matched lexicon polarities, 0 when
nothing matches. -/
def get_sentiment (lex : List (String × ℚ)) (text : String) : ℚ :=
  if (sentVals lex text).length = 0 then 0
  else (sentVals lex text).sum / ((sentVals lex text).length : ℚ)

theorem sum_bounds :
    ∀ l : List ℚ, (∀ x ∈ l, -1 ≤ x ∧ x ≤ 1) →
      -(l.length : ℚ) ≤ l.sum ∧ l.sum ≤ (l.length : ℚ) := by
  intro l
  induction l with
  | nil => intro _; simp
  | cons a t ih =>
    intro h
    have ha := h a (List.mem_cons_self a t)
    have ht := ih (fun x hx => h x (List.mem_cons_of_mem a hx))
    simp only [List.sum_cons, List.length_cons]
    push_cast
    constructor <;> linarith [ht.1, ht.2, ha.1, ha.2]

/-- C8 (confirmed): for every lexicon whose polarities lie in [-1, 1], the
sentiment of every text lies in the closed interval [-1, 1], and the empty
text scores exactly the neutral constant 0.  (Determinism is immediate:
the scorer is a pure function of the lexicon and the text.) -/
theorem c8_sentiment (lex : List (String × ℚ))
    (hlex : ∀ p ∈ lex, -1 ≤ p.2 ∧ p.2 ≤ 1) (text : String) :
    (-1 ≤ get_sentiment lex text ∧ get_sentiment lex text ≤ 1) ∧
    get_sentiment lex "" = 0 := by
  have hv : ∀ x ∈ sentVals lex text, -1 ≤ x ∧ x ≤ 1 := by
    intro x hx
    obtain ⟨w, _, hw⟩ := List.mem_filterMap.mp hx
    obtain ⟨l1, l2, hl, _⟩ := List.lookup_eq_some_iff.mp hw
    have hmem : ((⟨w⟩ : String), x) ∈ lex := by
      rw [hl]
      exact List.mem_append_right _ (List.mem_cons_self _ _)
    exact hlex _ hmem
  constructor
  · unfold get_sentiment
    by_cases h0 : (sentVals lex text).length = 0
    · rw [if_pos h0]
      norm_num
    · rw [if_neg h0]
      have hpos : (0 : ℚ) < ((sentVals lex text).length : ℚ) := by
        exact_mod_cast Nat.pos_of_ne_zero h0
      obtain ⟨hl, hu⟩ := sum_bounds _ hv
      constructor
      · rw [le_div_iff₀ hpos]
        linarith
      · rw [div_le_one hpos]
        exact hu
  · rfl

/-- Witness for C8: a concrete two-word lexicon in range, a matching text,
and the empty text. -/
theorem c8_witness :
    ((-1 ≤ get_sentiment [("good", 1 / 2), ("bad", -1 / 2)] "good day" ∧
        get_sentiment [("good", 1 / 2), ("bad", -1 / 2)] "good day" ≤ 1) ∧
      get_sentiment [("good", 1 / 2), ("bad", -1 / 2)] "" = 0) :=
  c8_sentiment _ (by decide) "good day"

end Disney
